import Mathlib

/-!
# Tic-tac-toe (`src/App.js`): game state model and win detection

A shallow embedding of the three pieces of logic in `src/App.js`:

* `calculateWinner` (lines 135-154), the scan over the eight winning lines;
* `Board.handleClick` (lines 27-38), the click guard and the copy-and-write of one cell;
* `Game` (lines 76-100): the state `history` / `currentMove`, the derived `xIsNext` and
  `currentSquares`, and the two mutators `handlePlay` and `jumpTo`.

JavaScript arrays are lists.  A cell holds `null`, `'X'` or `'O'`; the two falsy values `null`
and `undefined` (a read outside the array, or a hole) are not told apart by any test in the
source (every test is a truthiness test, or a `===` behind a truthiness test), and both are
`none` here.
-/

namespace TicTacToe

/-! ## Data model -/

/-- The two strings the program writes into a cell: `'X'` and `'O'`. -/
inductive Mark where
  | X
  | O
  deriving DecidableEq, Repr

/-- A cell value: `none` is the falsy empty value, `some m` the truthy string of mark `m`. -/
abbrev Cell := Option Mark

/-- The `squares` array of the source. -/
abbrev Squares := List Cell

/-- The read `squares[i]`: outside the array it gives the falsy empty value. -/
def readCell (squares : Squares) (i : Nat) : Cell :=
  squares.getD i none

/-- The assignment `nextSquares[i] = v` on an array, for an array index `i` (a natural number
up to `2^32 - 2`): inside the array it replaces the cell, at or past the end it grows the
array up to index `i` (the skipped cells read as empty).  Keys that are not array indices are
the subject of `Wide.Snapshot.write`. -/
def writeCell (squares : Squares) (i : Nat) (v : Mark) : Squares :=
  if i < squares.length then squares.set i (some v)
  else squares ++ List.replicate (i - squares.length) none ++ [some v]

/-- The value `Array(9).fill(null)`. -/
def emptySquares : Squares := List.replicate 9 none

/-! ## `calculateWinner` -/

/-- The constant `lines` of `calculateWinner`. -/
def lines : List (Nat × Nat × Nat) :=
  [(0, 1, 2), (3, 4, 5), (6, 7, 8), (0, 3, 6), (1, 4, 7), (2, 5, 8), (0, 4, 8), (2, 4, 6)]

/-- The `for` loop of `calculateWinner` over the lines still to be examined. -/
def calculateWinnerLoop (squares : Squares) : List (Nat × Nat × Nat) → Option Mark
  | [] => none
  | (a, b, c) :: rest =>
    if (readCell squares a).isSome && (readCell squares a == readCell squares b)
        && (readCell squares a == readCell squares c) then
      readCell squares a
    else
      calculateWinnerLoop squares rest

/-- The function `calculateWinner(squares)`; `none` is the returned `null`. -/
def calculateWinner (squares : Squares) : Option Mark :=
  calculateWinnerLoop squares lines

/-! ## `Board.handleClick` -/

/-- The function `handleClick(i)` of a `Board` rendered with props `xIsNext` and `squares`.
The result is `none` when the handler returns early without calling `onPlay`, and
`some nextSquares` when it calls `onPlay(nextSquares)`. -/
def handleClick (xIsNext : Bool) (squares : Squares) (i : Nat) : Option Squares :=
  if (calculateWinner squares).isSome || (readCell squares i).isSome then
    none
  else
    let nextSquares := squares
    if xIsNext then
      some (writeCell nextSquares i Mark.X)
    else
      some (writeCell nextSquares i Mark.O)

/-! ## `Game` -/

/-- The two state cells of the `Game` component. -/
structure Game where
  history : List Squares
  currentMove : Nat
  deriving DecidableEq, Repr

/-- The initial state: `useState([Array(9).fill(null)])` and `useState(0)`. -/
def Game.initial : Game :=
  { history := [emptySquares], currentMove := 0 }

/-- The derived value `const xIsNext = currentMove % 2 === 0`. -/
def Game.xIsNext (g : Game) : Bool :=
  g.currentMove % 2 == 0

/-- The derived value `const currentSquares = history[currentMove]`; `none` is `undefined`. -/
def Game.currentSquares (g : Game) : Option Squares :=
  g.history[g.currentMove]?

/-- The function `handlePlay(nextSquares)`: the history up to and including the current move,
followed by the new snapshot; the pointer becomes the last index of the new history. -/
def Game.handlePlay (g : Game) (nextSquares : Squares) : Game :=
  let nextHistory := g.history.take (g.currentMove + 1) ++ [nextSquares]
  { history := nextHistory, currentMove := nextHistory.length - 1 }

/-- The function `jumpTo(nextMove)`: it only stores the pointer. -/
def Game.jumpTo (g : Game) (nextMove : Nat) : Game :=
  { g with currentMove := nextMove }

/-- A click on cell `i`: the `Board` rendered from the state runs `handleClick(i)`, whose
`onPlay` is `handlePlay`.  When `history[currentMove]` is `undefined` the component cannot be
rendered (`calculateWinner` reads a cell of `undefined`), which is the result `none`. -/
def Game.play (g : Game) (i : Nat) : Option Game :=
  match g.currentSquares with
  | none => none
  | some squares =>
    match handleClick g.xIsNext squares i with
    | none => some g
    | some nextSquares => some (g.handlePlay nextSquares)

/-- The mark of the player to move for a given turn flag: `xIsNext ? 'X' : 'O'`. -/
def turnMark (xIsNext : Bool) : Mark :=
  if xIsNext then Mark.X else Mark.O

/-! ## Specification vocabulary -/

/-- A line whose first cell is non-empty and whose three cells are equal. -/
def LineComplete (squares : Squares) (l : Nat × Nat × Nat) : Prop :=
  readCell squares l.1 ≠ none ∧ readCell squares l.1 = readCell squares l.2.1 ∧
    readCell squares l.1 = readCell squares l.2.2

instance (squares : Squares) (l : Nat × Nat × Nat) : Decidable (LineComplete squares l) := by
  unfold LineComplete
  infer_instance

/-- Mark `m` occupies all three cells of one of the eight lines. -/
def OccupiesLine (squares : Squares) (m : Mark) : Prop :=
  ∃ l ∈ lines, readCell squares l.1 = some m ∧ readCell squares l.2.1 = some m ∧
    readCell squares l.2.2 = some m

/-- The states reachable from the initial one by clicks on the cells `0..8` and by jumps to
an index of the history. -/
inductive Reachable : Game → Prop where
  | initial : Reachable Game.initial
  | play {g g' : Game} (c : Nat) : Reachable g → c < 9 → g.play c = some g' → Reachable g'
  | jumpTo {g : Game} (k : Nat) : Reachable g → k < g.history.length → Reachable (g.jumpTo k)

/-- One recorded move: `next` was made from `prev`, the snapshot at index `i`, by a click
that passed the guard of `handleClick` (no winner on `prev`, target cell empty) and wrote
the mark of the turn derived from `i`. -/
def MoveStep (i : Nat) (prev next : Squares) : Prop :=
  calculateWinner prev = none ∧
    ∃ c, c < 9 ∧ readCell prev c = none ∧ next = writeCell prev c (turnMark (i % 2 == 0))

/-- The invariant of the state model: the pointer is an index of the history, the history
starts with the empty board, every snapshot has nine cells, and consecutive snapshots are
related by one recorded move. -/
structure Inv (g : Game) : Prop where
  pointer : g.currentMove < g.history.length
  first : g.history[0]? = some emptySquares
  nine : ∀ sq ∈ g.history, sq.length = 9
  step : ∀ (i : Nat) (a b : Squares), g.history[i]? = some a → g.history[i + 1]? = some b →
    MoveStep i a b

/-- The string of a mark. -/
def Mark.toString : Mark → String
  | Mark.X => "X"
  | Mark.O => "O"

/-- The `status` computed in the body of `Board` from its props: `'winner: ' + winner` when
there is a winner, else `'Next player: ' + (xIsNext ? 'X' : 'O')`. -/
def status (xIsNext : Bool) (squares : Squares) : String :=
  match calculateWinner squares with
  | some winner => "winner: " ++ winner.toString
  | none => "Next player: " ++ (turnMark xIsNext).toString

/-- A run of clicks, one after the other, each on the state left by the one before. -/
def Game.plays (g : Game) : List Nat → Option Game
  | [] => some g
  | c :: rest =>
    match g.play c with
    | none => none
    | some g' => g'.plays rest

/-- The number of cells of a snapshot that hold mark `m`. -/
def countMark (squares : Squares) (m : Mark) : Nat :=
  squares.count (some m)

/-- The number of non-empty cells of a snapshot. -/
def countFilled (squares : Squares) : Nat :=
  squares.countP Option.isSome

/-! ## Clicks under an arbitrary integer key

`handleClick(i)` does not check `i`.  For an integer `i` that is not an array index (negative,
or above `2^32 - 2`) the read `squares[i]` and the write `nextSquares[i] = v` address an own
property of the array object, which `slice()` does not copy.  The definitions below embed the
same source functions over snapshots that carry such properties; on snapshots without
properties and array indices they agree with the definitions above (`wide_play_ofGame`). -/

/-- The largest array index of an array, `2^32 - 2`. -/
def maxArrayIndex : Nat := 4294967294

/-- Whether the integer key `i` is an array index. -/
def isArrayIndex (i : Int) : Bool :=
  decide (0 ≤ i) && decide (i ≤ (maxArrayIndex : Int))

/-- A `squares` array as an object: its elements at the array indices `0 .. length - 1`, and
its own properties under integer keys that are not array indices, the latest write first. -/
structure Wide.Snapshot where
  cells : Squares
  props : List (Int × Mark)
  deriving DecidableEq, Repr

/-- The read `squares[i]` for an integer key: an element for an array index, else the own
property under that key; `none` is `undefined`. -/
def Wide.Snapshot.read (s : Wide.Snapshot) (i : Int) : Cell :=
  if isArrayIndex i then readCell s.cells i.toNat else s.props.lookup i

/-- The assignment `nextSquares[i] = v` for an integer key: the array write for an array
index, else the definition of an own property, which leaves the elements and the length as
they are. -/
def Wide.Snapshot.write (s : Wide.Snapshot) (i : Int) (v : Mark) : Wide.Snapshot :=
  if isArrayIndex i then { s with cells := writeCell s.cells i.toNat v }
  else { s with props := (i, v) :: s.props }

/-- The copy `squares.slice()`: a fresh array with the same elements and no other own
property. -/
def Wide.Snapshot.slice (s : Wide.Snapshot) : Wide.Snapshot :=
  { cells := s.cells, props := [] }

/-- The function `handleClick(i)` for an integer `i`; `calculateWinner` reads the array
indices `0..8` only. -/
def Wide.handleClick (xIsNext : Bool) (squares : Wide.Snapshot) (i : Int) :
    Option Wide.Snapshot :=
  if (calculateWinner squares.cells).isSome || (squares.read i).isSome then
    none
  else
    let nextSquares := squares.slice
    if xIsNext then
      some (nextSquares.write i Mark.X)
    else
      some (nextSquares.write i Mark.O)

/-- The two state cells of the `Game` component, over snapshots with own properties. -/
structure Wide.Game where
  history : List Wide.Snapshot
  currentMove : Nat
  deriving DecidableEq, Repr

/-- The derived value `const xIsNext = currentMove % 2 === 0`. -/
def Wide.Game.xIsNext (g : Wide.Game) : Bool :=
  g.currentMove % 2 == 0

/-- The derived value `const currentSquares = history[currentMove]`. -/
def Wide.Game.currentSquares (g : Wide.Game) : Option Wide.Snapshot :=
  g.history[g.currentMove]?

/-- The function `handlePlay(nextSquares)`. -/
def Wide.Game.handlePlay (g : Wide.Game) (nextSquares : Wide.Snapshot) : Wide.Game :=
  let nextHistory := g.history.take (g.currentMove + 1) ++ [nextSquares]
  { history := nextHistory, currentMove := nextHistory.length - 1 }

/-- A click with the integer `i`: `handleClick(i)` on the current snapshot, with `handlePlay`
as `onPlay`; `none` when `history[currentMove]` is `undefined`. -/
def Wide.Game.play (g : Wide.Game) (i : Int) : Option Wide.Game :=
  match g.currentSquares with
  | none => none
  | some squares =>
    match Wide.handleClick g.xIsNext squares i with
    | none => some g
    | some nextSquares => some (g.handlePlay nextSquares)

/-- An array without further own properties. -/
def Wide.Snapshot.ofSquares (squares : Squares) : Wide.Snapshot :=
  { cells := squares, props := [] }

/-- A state all of whose snapshots are arrays without further own properties. -/
def Wide.Game.ofGame (g : TicTacToe.Game) : Wide.Game :=
  { history := g.history.map Wide.Snapshot.ofSquares, currentMove := g.currentMove }

/-! ## `calculateWinner`: first complete line -/

theorem calculateWinnerLoop_eq_some (squares : Squares) (m : Mark) :
    ∀ ls : List (Nat × Nat × Nat),
      calculateWinnerLoop squares ls = some m ↔
        ∃ k l, ls[k]? = some l ∧ LineComplete squares l ∧
          (∀ (j : Nat) (l' : Nat × Nat × Nat), j < k → ls[j]? = some l' →
            ¬ LineComplete squares l') ∧
          readCell squares l.1 = some m := by
  intro ls
  induction ls with
  | nil => simp [calculateWinnerLoop]
  | cons hd tl ih =>
    obtain ⟨a, b, c⟩ := hd
    by_cases hc : LineComplete squares (a, b, c)
    · have hcond : ((readCell squares a).isSome && (readCell squares a == readCell squares b)
          && (readCell squares a == readCell squares c)) = true := by
        obtain ⟨h1, h2, h3⟩ := hc
        simp only [] at h1 h2 h3
        simp [← h2, ← h3, Option.isSome_iff_ne_none, h1]
      rw [calculateWinnerLoop, if_pos hcond]
      constructor
      · intro h
        exact ⟨0, (a, b, c), List.getElem?_cons_zero, hc,
          fun j _ hj => absurd hj (Nat.not_lt_zero j), h⟩
      · rintro ⟨k, l, hk, hl, hfirst, hm⟩
        cases k with
        | zero =>
          simp only [List.getElem?_cons_zero, Option.some.injEq] at hk
          subst hk
          exact hm
        | succ k => exact absurd hc (hfirst 0 (a, b, c) (Nat.succ_pos k) List.getElem?_cons_zero)
    · have hcond : ¬ (((readCell squares a).isSome && (readCell squares a == readCell squares b)
          && (readCell squares a == readCell squares c)) = true) := by
        intro h
        apply hc
        simp only [Bool.and_eq_true, beq_iff_eq, Option.isSome_iff_ne_none] at h
        exact ⟨h.1.1, h.1.2, h.2⟩
      rw [calculateWinnerLoop, if_neg hcond, ih]
      constructor
      · rintro ⟨k, l, hk, hl, hfirst, hm⟩
        refine ⟨k + 1, l, by simpa using hk, hl, ?_, hm⟩
        intro j l' hj hj'
        cases j with
        | zero =>
          simp only [List.getElem?_cons_zero, Option.some.injEq] at hj'
          subst hj'
          exact hc
        | succ j => exact hfirst j l' (Nat.lt_of_succ_lt_succ hj) (by simpa using hj')
      · rintro ⟨k, l, hk, hl, hfirst, hm⟩
        cases k with
        | zero =>
          simp only [List.getElem?_cons_zero, Option.some.injEq] at hk
          subst hk
          exact absurd hl hc
        | succ k =>
          refine ⟨k, l, by simpa using hk, hl, ?_, hm⟩
          intro j l' hj hj'
          exact hfirst (j + 1) l' (Nat.succ_lt_succ hj) (by simpa using hj')

theorem calculateWinnerLoop_eq_none (squares : Squares) :
    ∀ ls : List (Nat × Nat × Nat),
      calculateWinnerLoop squares ls = none ↔ ∀ l ∈ ls, ¬ LineComplete squares l := by
  intro ls
  induction ls with
  | nil => simp [calculateWinnerLoop]
  | cons hd tl ih =>
    obtain ⟨a, b, c⟩ := hd
    by_cases hc : LineComplete squares (a, b, c)
    · have hcond : ((readCell squares a).isSome && (readCell squares a == readCell squares b)
          && (readCell squares a == readCell squares c)) = true := by
        obtain ⟨h1, h2, h3⟩ := hc
        simp only [] at h1 h2 h3
        simp [← h2, ← h3, Option.isSome_iff_ne_none, h1]
      rw [calculateWinnerLoop, if_pos hcond]
      constructor
      · intro h
        exact absurd h hc.1
      · intro h
        exact absurd hc (h (a, b, c) (List.mem_cons_self _ _))
    · have hcond : ¬ (((readCell squares a).isSome && (readCell squares a == readCell squares b)
          && (readCell squares a == readCell squares c)) = true) := by
        intro h
        apply hc
        simp only [Bool.and_eq_true, beq_iff_eq, Option.isSome_iff_ne_none] at h
        exact ⟨h.1.1, h.1.2, h.2⟩
      rw [calculateWinnerLoop, if_neg hcond, ih]
      simp [hc]

/-- C1: on every 9-cell board `calculateWinner` returns the mark in the first cell of the
first line, in the order of `lines`, whose first cell is non-empty and whose three cells are
equal, and it returns `null` exactly when no line is of that kind. -/
theorem calculateWinner_first_complete_line (squares : Squares) (_h9 : squares.length = 9) :
    lines = [(0, 1, 2), (3, 4, 5), (6, 7, 8), (0, 3, 6), (1, 4, 7), (2, 5, 8), (0, 4, 8),
        (2, 4, 6)] ∧
      (∀ m : Mark, calculateWinner squares = some m ↔
        ∃ k l, lines[k]? = some l ∧ LineComplete squares l ∧
          (∀ (j : Nat) (l' : Nat × Nat × Nat), j < k → lines[j]? = some l' →
            ¬ LineComplete squares l') ∧
          readCell squares l.1 = some m) ∧
      (calculateWinner squares = none ↔ ∀ l ∈ lines, ¬ LineComplete squares l) :=
  ⟨rfl, fun m => calculateWinnerLoop_eq_some squares m lines,
    calculateWinnerLoop_eq_none squares lines⟩

/-- C1, at the board `[O,O,_,X,X,X,_,_,_]`. -/
theorem calculateWinner_first_complete_line_witness :
    ([some Mark.O, some Mark.O, none, some Mark.X, some Mark.X, some Mark.X, none, none,
        none] : Squares).length = 9 ∧
      calculateWinner [some Mark.O, some Mark.O, none, some Mark.X, some Mark.X, some Mark.X,
        none, none, none] = some Mark.X :=
  ⟨rfl, ((calculateWinner_first_complete_line
      [some Mark.O, some Mark.O, none, some Mark.X, some Mark.X, some Mark.X, none, none, none]
      rfl).2.1 Mark.X).2
    ⟨1, (3, 4, 5), by simp [lines], by decide, by
      intro j l' hj hl'
      have hj0 : j = 0 := by omega
      subst hj0
      simp only [lines, List.getElem?_cons_zero, Option.some.injEq] at hl'
      subst hl'
      decide, rfl⟩⟩

/-! ## Cells, clicks and plays: basic facts -/

theorem readCell_eq_getElem (squares : Squares) (i : Nat) (h : i < squares.length) :
    readCell squares i = squares[i] := by
  simp [readCell, List.getD_eq_getElem?_getD, List.getElem?_eq_getElem h]

theorem readCell_of_length_le (squares : Squares) (i : Nat) (h : squares.length ≤ i) :
    readCell squares i = none := by
  simp [readCell, List.getD_eq_getElem?_getD, List.getElem?_eq_none h]

theorem readCell_writeCell_self (squares : Squares) (i : Nat) (v : Mark) :
    readCell (writeCell squares i v) i = some v := by
  unfold writeCell readCell
  split
  · rename_i h
    simp [List.getD_eq_getElem?_getD, List.getElem?_set_self h]
  · rename_i h
    have hlen : (squares ++ List.replicate (i - squares.length) none).length = i := by
      simp only [List.length_append, List.length_replicate]
      omega
    rw [List.getD_eq_getElem?_getD, List.getElem?_append_right (by omega), hlen]
    simp

theorem readCell_writeCell_ne (squares : Squares) (i j : Nat) (v : Mark) (h : j ≠ i) :
    readCell (writeCell squares i v) j = readCell squares j := by
  unfold writeCell readCell
  split
  · simp [List.getD_eq_getElem?_getD, List.getElem?_set_ne (Ne.symm h)]
  · rename_i hi
    simp only [List.getD_eq_getElem?_getD]
    by_cases hj : j < squares.length
    · rw [List.append_assoc, List.getElem?_append_left hj]
    · have hj' : squares.length ≤ j := Nat.le_of_not_lt hj
      rw [List.getElem?_eq_none hj']
      by_cases hji : j < i
      · rw [List.getElem?_append_left (by simp; omega),
          List.getElem?_append_right hj', List.getElem?_replicate_of_lt (by omega)]
        rfl
      · rw [List.getElem?_eq_none (by simp; omega)]

theorem length_writeCell_of_lt (squares : Squares) (i : Nat) (v : Mark)
    (h : i < squares.length) : (writeCell squares i v).length = squares.length := by
  simp [writeCell, h]

theorem handleClick_of_guard_passed (xIsNext : Bool) (squares : Squares) (i : Nat)
    (hwin : calculateWinner squares = none) (hcell : readCell squares i = none) :
    handleClick xIsNext squares i = some (writeCell squares i (turnMark xIsNext)) := by
  cases xIsNext <;> simp [handleClick, hwin, hcell, turnMark]

theorem handleClick_of_winner (xIsNext : Bool) (squares : Squares) (i : Nat)
    (hwin : calculateWinner squares ≠ none) : handleClick xIsNext squares i = none := by
  have h : (calculateWinner squares).isSome = true := Option.isSome_iff_ne_none.2 hwin
  simp [handleClick, h]

theorem handleClick_of_occupied (xIsNext : Bool) (squares : Squares) (i : Nat)
    (hcell : readCell squares i ≠ none) : handleClick xIsNext squares i = none := by
  have h : (readCell squares i).isSome = true := Option.isSome_iff_ne_none.2 hcell
  simp [handleClick, h]

theorem handleClick_eq_some (xIsNext : Bool) (squares next : Squares) (i : Nat)
    (h : handleClick xIsNext squares i = some next) :
    calculateWinner squares = none ∧ readCell squares i = none ∧
      next = writeCell squares i (turnMark xIsNext) := by
  by_cases hwin : calculateWinner squares = none
  · by_cases hcell : readCell squares i = none
    · rw [handleClick_of_guard_passed xIsNext squares i hwin hcell] at h
      exact ⟨hwin, hcell, (Option.some.inj h).symm⟩
    · rw [handleClick_of_occupied xIsNext squares i hcell] at h
      exact absurd h (by simp)
  · rw [handleClick_of_winner xIsNext squares i hwin] at h
    exact absurd h (by simp)

theorem currentSquares_of_lt (g : Game) (hp : g.currentMove < g.history.length) :
    g.currentSquares = some g.history[g.currentMove] := by
  simp [Game.currentSquares, List.getElem?_eq_getElem hp]

theorem play_of_guard_passed (g : Game) (c : Nat) (cur : Squares)
    (hcur : g.currentSquares = some cur) (hwin : calculateWinner cur = none)
    (hcell : readCell cur c = none) :
    g.play c = some (g.handlePlay (writeCell cur c (turnMark g.xIsNext))) := by
  simp [Game.play, hcur, handleClick_of_guard_passed g.xIsNext cur c hwin hcell]

theorem play_of_guard_failed (g : Game) (c : Nat) (cur : Squares)
    (hcur : g.currentSquares = some cur)
    (h : calculateWinner cur ≠ none ∨ readCell cur c ≠ none) : g.play c = some g := by
  rcases h with h | h
  · simp [Game.play, hcur, handleClick_of_winner g.xIsNext cur c h]
  · simp [Game.play, hcur, handleClick_of_occupied g.xIsNext cur c h]

/-- Every result of a click is either the unchanged state or the state after `handlePlay`
with the snapshot written by a click that passed the guard. -/
theorem play_cases (g g' : Game) (c : Nat) (h : g.play c = some g') :
    g' = g ∨ ∃ cur, g.currentSquares = some cur ∧ calculateWinner cur = none ∧
      readCell cur c = none ∧ g' = g.handlePlay (writeCell cur c (turnMark g.xIsNext)) := by
  unfold Game.play at h
  cases hcur : g.currentSquares with
  | none => simp [hcur] at h
  | some cur =>
    simp only [hcur] at h
    cases hclick : handleClick g.xIsNext cur c with
    | none =>
      simp only [hclick, Option.some.injEq] at h
      exact Or.inl h.symm
    | some next =>
      simp only [hclick, Option.some.injEq] at h
      obtain ⟨hwin, hcell, hnext⟩ := handleClick_eq_some g.xIsNext cur next c hclick
      exact Or.inr ⟨cur, rfl, hwin, hcell, by rw [← h, hnext]⟩

theorem handlePlay_history_length (g : Game) (next : Squares)
    (hp : g.currentMove < g.history.length) :
    (g.handlePlay next).history.length = g.currentMove + 2 := by
  simp only [Game.handlePlay, List.length_append, List.length_take, List.length_singleton]
  omega

theorem handlePlay_currentMove (g : Game) (next : Squares)
    (hp : g.currentMove < g.history.length) :
    (g.handlePlay next).currentMove = g.currentMove + 1 := by
  simp only [Game.handlePlay, List.length_append, List.length_take, List.length_singleton]
  omega

theorem handlePlay_history_getElem?_le (g : Game) (next : Squares) (i : Nat)
    (hp : g.currentMove < g.history.length) (hi : i ≤ g.currentMove) :
    (g.handlePlay next).history[i]? = g.history[i]? := by
  simp only [Game.handlePlay]
  rw [List.getElem?_append_left (by simp only [List.length_take]; omega),
    List.getElem?_take_of_lt (by omega)]

theorem handlePlay_history_getElem?_succ (g : Game) (next : Squares)
    (hp : g.currentMove < g.history.length) :
    (g.handlePlay next).history[g.currentMove + 1]? = some next := by
  simp only [Game.handlePlay]
  have hlen : (g.history.take (g.currentMove + 1)).length = g.currentMove + 1 := by
    simp only [List.length_take]
    omega
  rw [List.getElem?_append_right (by omega), hlen]
  simp

/-! ## A click that passes the guard -/

/-- C2: in a state whose pointer is an index of the history, a click on a cell `c` of `0..8`
that is empty in the current snapshot, when the current snapshot has no winner, gives the
state whose history is the old entries `0..pointer` followed by one new snapshot and whose
pointer is `pointer + 1`, the new last index; the new snapshot agrees with the current one in
every cell but `c`, which holds `X` when the pointer is even and `O` when it is odd. -/
theorem play_appends_snapshot (g : Game) (c : Nat) (hp : g.currentMove < g.history.length)
    (_hc : c < 9) (hcell : readCell g.history[g.currentMove] c = none)
    (hwin : calculateWinner g.history[g.currentMove] = none) :
    ∃ next : Squares,
      g.play c = some
        { history := g.history.take (g.currentMove + 1) ++ [next],
          currentMove := g.currentMove + 1 } ∧
      (g.history.take (g.currentMove + 1) ++ [next]).length = g.currentMove + 2 ∧
      (∀ i, i ≤ g.currentMove →
        (g.history.take (g.currentMove + 1) ++ [next])[i]? = g.history[i]?) ∧
      (g.history.take (g.currentMove + 1) ++ [next])[g.currentMove + 1]? = some next ∧
      (∀ j, j ≠ c → readCell next j = readCell g.history[g.currentMove] j) ∧
      (g.currentMove % 2 = 0 → readCell next c = some Mark.X) ∧
      (g.currentMove % 2 = 1 → readCell next c = some Mark.O) ∧
      (g.history[g.currentMove].length = 9 → next.length = 9) := by
  refine ⟨writeCell g.history[g.currentMove] c (turnMark g.xIsNext), ?_, ?_, ?_, ?_, ?_, ?_,
    ?_, ?_⟩
  · rw [play_of_guard_passed g c _ (currentSquares_of_lt g hp) hwin hcell]
    have h := handlePlay_currentMove g (writeCell g.history[g.currentMove] c
      (turnMark g.xIsNext)) hp
    simp only [Game.handlePlay] at h ⊢
    rw [h]
  · exact handlePlay_history_length g _ hp
  · intro i hi
    exact handlePlay_history_getElem?_le g _ i hp hi
  · exact handlePlay_history_getElem?_succ g _ hp
  · intro j hj
    exact readCell_writeCell_ne _ c j _ hj
  · intro heven
    rw [readCell_writeCell_self]
    simp [Game.xIsNext, turnMark, heven]
  · intro hodd
    rw [readCell_writeCell_self]
    simp [Game.xIsNext, turnMark, hodd]
  · intro h9
    rw [length_writeCell_of_lt _ c _ (by omega)]
    exact h9

/-- C2, at the initial state and cell 4. -/
theorem play_appends_snapshot_witness :
    ∃ next : Squares,
      Game.initial.play 4 = some
        { history := Game.initial.history.take (Game.initial.currentMove + 1) ++ [next],
          currentMove := Game.initial.currentMove + 1 } ∧
      (Game.initial.history.take (Game.initial.currentMove + 1) ++ [next]).length =
        Game.initial.currentMove + 2 ∧
      (∀ i, i ≤ Game.initial.currentMove →
        (Game.initial.history.take (Game.initial.currentMove + 1) ++ [next])[i]? =
          Game.initial.history[i]?) ∧
      (Game.initial.history.take (Game.initial.currentMove + 1) ++
        [next])[Game.initial.currentMove + 1]? = some next ∧
      (∀ j, j ≠ 4 → readCell next j = readCell (Game.initial.history.get ⟨0, by decide⟩) j) ∧
      (Game.initial.currentMove % 2 = 0 → readCell next 4 = some Mark.X) ∧
      (Game.initial.currentMove % 2 = 1 → readCell next 4 = some Mark.O) ∧
      ((Game.initial.history.get ⟨0, by decide⟩).length = 9 → next.length = 9) :=
  play_appends_snapshot Game.initial 4 (by decide) (by decide) (by decide) (by decide)

/-! ## Clicks stopped by the guard -/

/-- C3: in a state whose pointer is an index of the history, a click on a cell that is
already occupied in the current snapshot leaves the whole state unchanged, so neither the
length of the history nor the pointer changes. -/
theorem play_occupied_cell_unchanged (g : Game) (c : Nat)
    (hp : g.currentMove < g.history.length)
    (hcell : readCell g.history[g.currentMove] c ≠ none) :
    g.play c = some g ∧
      ∀ g', g.play c = some g' →
        g'.history.length = g.history.length ∧ g'.currentMove = g.currentMove := by
  have h : g.play c = some g :=
    play_of_guard_failed g c _ (currentSquares_of_lt g hp) (Or.inr hcell)
  refine ⟨h, ?_⟩
  intro g' hg'
  rw [h] at hg'
  cases hg'
  exact ⟨rfl, rfl⟩

/-- C3, at the state after one click on cell 0, clicking cell 0 again. -/
theorem play_occupied_cell_unchanged_witness :
    (Game.mk [emptySquares, writeCell emptySquares 0 Mark.X] 1).play 0 =
      some (Game.mk [emptySquares, writeCell emptySquares 0 Mark.X] 1) :=
  (play_occupied_cell_unchanged (Game.mk [emptySquares, writeCell emptySquares 0 Mark.X] 1) 0
    (by decide) (by decide)).1

/-- C4: in a state whose pointer is an index of the history and whose current snapshot has a
winner, a click on any cell, empty or not, leaves the history and the pointer unchanged. -/
theorem play_after_win_unchanged (g : Game) (hp : g.currentMove < g.history.length)
    (hwin : calculateWinner g.history[g.currentMove] ≠ none) :
    ∀ c : Nat, g.play c = some g :=
  fun c => play_of_guard_failed g c _ (currentSquares_of_lt g hp) (Or.inl hwin)

/-- C4, at a one-snapshot history holding `[X,X,X,O,O,_,_,_,_]`, clicking the empty cell 8. -/
theorem play_after_win_unchanged_witness :
    (Game.mk [[some Mark.X, some Mark.X, some Mark.X, some Mark.O, some Mark.O, none, none,
        none, none]] 0).play 8 =
      some (Game.mk [[some Mark.X, some Mark.X, some Mark.X, some Mark.O, some Mark.O, none,
        none, none, none]] 0) :=
  play_after_win_unchanged
    (Game.mk [[some Mark.X, some Mark.X, some Mark.X, some Mark.O, some Mark.O, none, none,
      none, none]] 0) (by decide) (by decide) 8

/-! ## The invariant of reachable states -/

theorem calculateWinner_emptySquares : calculateWinner emptySquares = none := by
  decide

theorem inv_initial : Inv Game.initial where
  pointer := by decide
  first := rfl
  nine := by
    intro sq hsq
    simp only [Game.initial, List.mem_singleton] at hsq
    subst hsq
    rfl
  step := by
    intro i a b _ hb
    simp [Game.initial] at hb

theorem inv_jumpTo (g : Game) (k : Nat) (hg : Inv g) (hk : k < g.history.length) :
    Inv (g.jumpTo k) where
  pointer := hk
  first := hg.first
  nine := hg.nine
  step := hg.step

theorem inv_handlePlay (g : Game) (c : Nat) (cur : Squares) (hg : Inv g) (hc : c < 9)
    (hcur : g.currentSquares = some cur) (hwin : calculateWinner cur = none)
    (hcell : readCell cur c = none) :
    Inv (g.handlePlay (writeCell cur c (turnMark g.xIsNext))) where
  pointer := by
    rw [handlePlay_currentMove g _ hg.pointer, handlePlay_history_length g _ hg.pointer]
    omega
  first := by
    rw [handlePlay_history_getElem?_le g _ 0 hg.pointer (Nat.zero_le _)]
    exact hg.first
  nine := by
    have hcur9 : cur.length = 9 := hg.nine cur (List.getElem?_mem hcur)
    intro sq hsq
    simp only [Game.handlePlay, List.mem_append, List.mem_singleton] at hsq
    rcases hsq with hsq | hsq
    · exact hg.nine sq (List.mem_of_mem_take hsq)
    · rw [hsq, length_writeCell_of_lt cur c _ (by omega)]
      exact hcur9
  step := by
    intro i a b ha hb
    rcases Nat.lt_trichotomy (i + 1) (g.currentMove + 1) with hlt | heq | hgt
    · rw [handlePlay_history_getElem?_le g _ i hg.pointer (by omega)] at ha
      rw [handlePlay_history_getElem?_le g _ (i + 1) hg.pointer (by omega)] at hb
      exact hg.step i a b ha hb
    · have hi : i = g.currentMove := by omega
      subst hi
      rw [handlePlay_history_getElem?_le g _ g.currentMove hg.pointer (Nat.le_refl _)] at ha
      rw [handlePlay_history_getElem?_succ g _ hg.pointer] at hb
      have hcur' : g.history[g.currentMove]? = some cur := hcur
      rw [hcur'] at ha
      cases ha
      cases hb
      exact ⟨hwin, c, hc, hcell, rfl⟩
    · have hlen := handlePlay_history_length g (writeCell cur c (turnMark g.xIsNext)) hg.pointer
      rw [List.getElem?_eq_none (by omega)] at hb
      exact absurd hb (by simp)

theorem inv_play (g g' : Game) (c : Nat) (hg : Inv g) (hc : c < 9) (h : g.play c = some g') :
    Inv g' := by
  rcases play_cases g g' c h with h' | ⟨cur, hcur, hwin, hcell, h'⟩
  · rw [h']
    exact hg
  · rw [h']
    exact inv_handlePlay g c cur hg hc hcur hwin hcell

/-- Every reachable state satisfies the invariant. -/
theorem inv_of_reachable (g : Game) (h : Reachable g) : Inv g := by
  induction h with
  | initial => exact inv_initial
  | play c _ hc hplay ih => exact inv_play _ _ c ih hc hplay
  | jumpTo k _ hk ih => exact inv_jumpTo _ k ih hk

/-! ## Jump, then click: truncation of the history -/

/-- A click that changed the state appended one snapshot after the current entry. -/
theorem play_changed (g g' : Game) (c : Nat) (h : g.play c = some g') (hne : g' ≠ g) :
    g.currentMove < g.history.length ∧ g'.history.length = g.currentMove + 2 ∧
      g'.currentMove = g.currentMove + 1 ∧ g'.history[0]? = g.history[0]? := by
  rcases play_cases g g' c h with h' | ⟨cur, hcur, _, _, h'⟩
  · exact absurd h' hne
  · have hp : g.currentMove < g.history.length := by
      by_contra hcon
      have hnone : g.currentSquares = none := by
        simp only [Game.currentSquares]
        exact List.getElem?_eq_none (Nat.le_of_not_lt hcon)
      rw [hnone] at hcur
      exact absurd hcur (by simp)
    rw [h']
    exact ⟨hp, handlePlay_history_length g _ hp, handlePlay_currentMove g _ hp,
      handlePlay_history_getElem?_le g _ 0 hp (Nat.zero_le _)⟩

/-- C5, as stated, fails: in the reachable state after one click on cell 0 (history of
length 2), `jumpTo(1)` followed by a click on the occupied cell 0 leaves a history of
length 2, not `1 + 2`. -/
theorem truncation_law_fails_on_occupied_cell :
    Reachable (Game.mk [emptySquares, writeCell emptySquares 0 Mark.X] 1) ∧
      1 < (Game.mk [emptySquares, writeCell emptySquares 0 Mark.X] 1).history.length ∧
      0 < 9 ∧
      ((Game.mk [emptySquares, writeCell emptySquares 0 Mark.X] 1).jumpTo 1).play 0 =
        some (Game.mk [emptySquares, writeCell emptySquares 0 Mark.X] 1) ∧
      (Game.mk [emptySquares, writeCell emptySquares 0 Mark.X] 1).history.length ≠ 1 + 2 :=
  ⟨Reachable.play 0 Reachable.initial (by decide) (by decide), by decide, by decide,
    by decide, by decide⟩

/-- C5, amended: for every reachable state, every index `k` of the history and every cell
`c` of `0..8`, when `c` is empty in `history[k]` and `history[k]` has no winner, `jumpTo(k)`
followed by a click on `c` gives a history of length exactly `k + 2` whose entries `0..k`
are the old ones and whose entry `k + 1` is the new snapshot (`history[k]` with the mark of
turn `k` written to `c`), with the pointer at `k + 1`; when `c` is occupied in `history[k]`
or `history[k]` has a winner, the click changes nothing after the jump. -/
theorem jumpTo_play_truncates (g : Game) (k c : Nat) (_hr : Reachable g)
    (hk : k < g.history.length) (_hc : c < 9) :
    (readCell g.history[k] c = none → calculateWinner g.history[k] = none →
      ∃ g', (g.jumpTo k).play c = some g' ∧ g'.history.length = k + 2 ∧
        (∀ i, i ≤ k → g'.history[i]? = g.history[i]?) ∧
        g'.history[k + 1]? = some (writeCell g.history[k] c (turnMark (k % 2 == 0))) ∧
        g'.currentMove = k + 1) ∧
    ((readCell g.history[k] c ≠ none ∨ calculateWinner g.history[k] ≠ none) →
      (g.jumpTo k).play c = some (g.jumpTo k) ∧ (g.jumpTo k).history = g.history) := by
  have hcur : (g.jumpTo k).currentSquares = some g.history[k] :=
    currentSquares_of_lt (g.jumpTo k) hk
  constructor
  · intro hcell hwin
    refine ⟨(g.jumpTo k).handlePlay (writeCell g.history[k] c (turnMark (g.jumpTo k).xIsNext)),
      play_of_guard_passed (g.jumpTo k) c _ hcur hwin hcell, ?_, ?_, ?_, ?_⟩
    · exact handlePlay_history_length (g.jumpTo k) _ hk
    · intro i hi
      exact handlePlay_history_getElem?_le (g.jumpTo k) _ i hk hi
    · exact handlePlay_history_getElem?_succ (g.jumpTo k) _ hk
    · exact handlePlay_currentMove (g.jumpTo k) _ hk
  · intro h
    exact ⟨play_of_guard_failed (g.jumpTo k) c _ hcur h.symm, rfl⟩

/-- C5, amended, at the state after one click on cell 0, jumping to 0 and clicking cell 4. -/
theorem jumpTo_play_truncates_witness :
    ∃ g', ((Game.mk [emptySquares, writeCell emptySquares 0 Mark.X] 1).jumpTo 0).play 4 =
        some g' ∧ g'.history.length = 0 + 2 ∧
      (∀ i, i ≤ 0 → g'.history[i]? =
        (Game.mk [emptySquares, writeCell emptySquares 0 Mark.X] 1).history[i]?) ∧
      g'.history[0 + 1]? = some (writeCell emptySquares 4 Mark.X) ∧
      g'.currentMove = 0 + 1 :=
  (jumpTo_play_truncates (Game.mk [emptySquares, writeCell emptySquares 0 Mark.X] 1) 0 4
    (Reachable.play 0 Reachable.initial (by decide) (by decide)) (by decide) (by decide)).1
    (by decide) (by decide)

/-! ## Jumps -/

/-- C6: for every state and every index `k` of the history, `jumpTo(k)` sets the pointer to
`k` and leaves the history list identical; and after three clicks from the initial state
that each changed the state, `jumpTo(0)` gives pointer 0, the all-empty board as current
snapshot, and a history that still has length 4. -/
theorem jumpTo_moves_only_pointer (g : Game) (k : Nat) (_hk : k < g.history.length) :
    ((g.jumpTo k).currentMove = k ∧ (g.jumpTo k).history = g.history ∧
      (g.jumpTo k).history.length = g.history.length) ∧
    (∀ (c1 c2 c3 : Nat) (g1 g2 g3 : Game),
      Game.initial.play c1 = some g1 → g1 ≠ Game.initial →
      g1.play c2 = some g2 → g2 ≠ g1 →
      g2.play c3 = some g3 → g3 ≠ g2 →
      g3.history.length = 4 ∧ (g3.jumpTo 0).currentMove = 0 ∧
        (g3.jumpTo 0).currentSquares = some (List.replicate 9 none) ∧
        (g3.jumpTo 0).history.length = 4) := by
  refine ⟨⟨rfl, rfl, rfl⟩, ?_⟩
  intro c1 c2 c3 g1 g2 g3 h1 n1 h2 n2 h3 n3
  obtain ⟨_, _, p1, z1⟩ := play_changed _ _ c1 h1 n1
  obtain ⟨_, _, p2, z2⟩ := play_changed _ _ c2 h2 n2
  obtain ⟨_, l3, _, z3⟩ := play_changed _ _ c3 h3 n3
  have hlen : g3.history.length = 4 := by
    rw [l3, p2, p1]
    rfl
  refine ⟨hlen, rfl, ?_, hlen⟩
  show g3.history[0]? = some (List.replicate 9 none)
  rw [z3, z2, z1]
  rfl

/-- C6, at the state after the clicks 0, 4, 1, jumping to 0. -/
theorem jumpTo_moves_only_pointer_witness :
    ((Game.mk [emptySquares, writeCell emptySquares 0 Mark.X,
        writeCell (writeCell emptySquares 0 Mark.X) 4 Mark.O,
        writeCell (writeCell (writeCell emptySquares 0 Mark.X) 4 Mark.O) 1 Mark.X] 3).jumpTo
        0).currentMove = 0 ∧
      ((Game.mk [emptySquares, writeCell emptySquares 0 Mark.X,
        writeCell (writeCell emptySquares 0 Mark.X) 4 Mark.O,
        writeCell (writeCell (writeCell emptySquares 0 Mark.X) 4 Mark.O) 1 Mark.X] 3).jumpTo
        0).currentSquares = some (List.replicate 9 none) ∧
      ((Game.mk [emptySquares, writeCell emptySquares 0 Mark.X,
        writeCell (writeCell emptySquares 0 Mark.X) 4 Mark.O,
        writeCell (writeCell (writeCell emptySquares 0 Mark.X) 4 Mark.O) 1 Mark.X] 3).jumpTo
        0).history.length = 4 :=
  ((jumpTo_moves_only_pointer
    (Game.mk [emptySquares, writeCell emptySquares 0 Mark.X,
      writeCell (writeCell emptySquares 0 Mark.X) 4 Mark.O,
      writeCell (writeCell (writeCell emptySquares 0 Mark.X) 4 Mark.O) 1 Mark.X] 3) 0
    (by decide)).2 0 4 1
    (Game.mk [emptySquares, writeCell emptySquares 0 Mark.X] 1)
    (Game.mk [emptySquares, writeCell emptySquares 0 Mark.X,
      writeCell (writeCell emptySquares 0 Mark.X) 4 Mark.O] 2)
    (Game.mk [emptySquares, writeCell emptySquares 0 Mark.X,
      writeCell (writeCell emptySquares 0 Mark.X) 4 Mark.O,
      writeCell (writeCell (writeCell emptySquares 0 Mark.X) 4 Mark.O) 1 Mark.X] 3)
    (by decide) (by decide) (by decide) (by decide) (by decide) (by decide)).2

/-! ## Invariants of the reachable histories -/

/-- A recorded move between nine-cell boards changes exactly the clicked cell. -/
theorem moveStep_differs_in_one_cell (i : Nat) (a b : Squares) (h : MoveStep i a b) :
    ∃ c, c < 9 ∧ readCell a c = none ∧ readCell b c ≠ readCell a c ∧
      ∀ j, readCell b j ≠ readCell a j → j = c := by
  obtain ⟨_, c, hc, hcell, hb⟩ := h
  refine ⟨c, hc, hcell, ?_, ?_⟩
  · rw [hb, readCell_writeCell_self, hcell]
    simp
  · intro j hj
    by_contra hne
    exact hj (by rw [hb, readCell_writeCell_ne a c j _ hne])

/-- C7: in every reachable state `history[0]` is the all-empty 9-cell board and each later
entry differs from the entry before it in exactly one cell, which is empty in the entry
before it. -/
theorem history_entries_differ_in_one_cell (g : Game) (hr : Reachable g) :
    g.history[0]? = some (List.replicate 9 none) ∧
      ∀ (i : Nat) (a b : Squares), g.history[i]? = some a → g.history[i + 1]? = some b →
        a.length = 9 ∧ b.length = 9 ∧
        ∃ c, c < 9 ∧ readCell a c = none ∧ readCell b c ≠ readCell a c ∧
          ∀ j, readCell b j ≠ readCell a j → j = c := by
  have hinv := inv_of_reachable g hr
  refine ⟨hinv.first, ?_⟩
  intro i a b ha hb
  exact ⟨hinv.nine a (List.getElem?_mem ha), hinv.nine b (List.getElem?_mem hb),
    moveStep_differs_in_one_cell i a b (hinv.step i a b ha hb)⟩

/-- C7, at the state reached by the clicks 0 and 4. -/
theorem history_entries_differ_in_one_cell_witness :
    (Game.mk [emptySquares, writeCell emptySquares 0 Mark.X,
        writeCell (writeCell emptySquares 0 Mark.X) 4 Mark.O] 2).history[0]? =
      some (List.replicate 9 none) :=
  (history_entries_differ_in_one_cell
    (Game.mk [emptySquares, writeCell emptySquares 0 Mark.X,
      writeCell (writeCell emptySquares 0 Mark.X) 4 Mark.O] 2)
    (Reachable.play 4 (Reachable.play 0 Reachable.initial (by decide) rfl)
      (by decide) rfl)).1

/-- C8: in every reachable state the pointer satisfies `0 ≤ pointer ≤ len(history) - 1`, and
the lookup `history[currentMove]` of the current snapshot succeeds. -/
theorem pointer_in_range (g : Game) (hr : Reachable g) :
    0 ≤ g.currentMove ∧ g.currentMove ≤ g.history.length - 1 ∧ 0 < g.history.length ∧
      ∃ squares, g.currentSquares = some squares := by
  have hp := (inv_of_reachable g hr).pointer
  exact ⟨Nat.zero_le _, by omega, by omega, g.history[g.currentMove],
    currentSquares_of_lt g hp⟩

/-- C8, at the state reached by the click 0 followed by `jumpTo(0)`. -/
theorem pointer_in_range_witness :
    ∃ squares,
      ((Game.mk [emptySquares, writeCell emptySquares 0 Mark.X] 1).jumpTo 0).currentSquares =
        some squares :=
  (pointer_in_range ((Game.mk [emptySquares, writeCell emptySquares 0 Mark.X] 1).jumpTo 0)
    (Reachable.jumpTo 0 (Reachable.play 0 Reachable.initial (by decide) (by decide))
      (by decide))).2.2.2

/-! ## Winners on reachable snapshots -/

theorem occupiesLine_of_calculateWinner (squares : Squares) (m : Mark)
    (h : calculateWinner squares = some m) : OccupiesLine squares m := by
  obtain ⟨k, l, hk, ⟨_, h2, h3⟩, _, hm⟩ := (calculateWinnerLoop_eq_some squares m lines).1 h
  exact ⟨l, List.getElem?_mem hk, hm, by rw [← h2, hm], by rw [← h3, hm]⟩

theorem calculateWinner_ne_none_of_occupiesLine (squares : Squares) (m : Mark)
    (h : OccupiesLine squares m) : calculateWinner squares ≠ none := by
  obtain ⟨l, hl, h1, h2, h3⟩ := h
  intro hnone
  refine (calculateWinnerLoop_eq_none squares lines).1 hnone l hl ⟨?_, ?_, ?_⟩
  · rw [h1]
    simp
  · rw [h1, h2]
  · rw [h1, h3]

/-- After a recorded move every complete line belongs to the mark just written. -/
theorem moveStep_line_owner (i : Nat) (a b : Squares) (m : Mark) (h : MoveStep i a b)
    (hm : OccupiesLine b m) : m = turnMark (i % 2 == 0) := by
  obtain ⟨hwin, c, _, _, hb⟩ := h
  obtain ⟨l, hl, h1, h2, h3⟩ := hm
  have hread : ∀ j, readCell b j = some m → j ≠ c → readCell a j = some m := by
    intro j hj hne
    rw [← hj, hb, readCell_writeCell_ne a c j _ hne]
  have hself : ∀ j, readCell b j = some m → j = c → m = turnMark (i % 2 == 0) := by
    intro j hj hjc
    rw [hjc, hb, readCell_writeCell_self] at hj
    exact (Option.some.inj hj).symm
  by_cases c1 : l.1 = c
  · exact hself _ h1 c1
  · by_cases c2 : l.2.1 = c
    · exact hself _ h2 c2
    · by_cases c3 : l.2.2 = c
      · exact hself _ h3 c3
      · exact absurd hwin (calculateWinner_ne_none_of_occupiesLine a m
          ⟨l, hl, hread _ h1 c1, hread _ h2 c2, hread _ h3 c3⟩)

/-- C9: for every snapshot in the history of a reachable state, if `calculateWinner` returns
a mark then that mark occupies a complete line and the other mark occupies none; and
`calculateWinner` of the initial all-empty snapshot is `null`. -/
theorem winner_is_the_only_line_owner (g : Game) (hr : Reachable g) :
    (∀ squares ∈ g.history, ∀ m : Mark, calculateWinner squares = some m →
      OccupiesLine squares m ∧ ∀ m' : Mark, m' ≠ m → ¬ OccupiesLine squares m') ∧
    Game.initial.history = [List.replicate 9 none] ∧
    calculateWinner (List.replicate 9 none) = none := by
  have hinv := inv_of_reachable g hr
  refine ⟨?_, rfl, calculateWinner_emptySquares⟩
  intro squares hmem m hm
  have hocc := occupiesLine_of_calculateWinner squares m hm
  refine ⟨hocc, ?_⟩
  intro m' hne hocc'
  obtain ⟨i, hi⟩ := List.getElem?_of_mem hmem
  cases i with
  | zero =>
    rw [hinv.first] at hi
    cases hi
    rw [calculateWinner_emptySquares] at hm
    exact absurd hm (by simp)
  | succ i =>
    have hlt : i + 1 < g.history.length := by
      by_contra hcon
      rw [List.getElem?_eq_none (Nat.le_of_not_lt hcon)] at hi
      exact absurd hi (by simp)
    have hprev : g.history[i]? = some g.history[i] := List.getElem?_eq_getElem (by omega)
    have hstep := hinv.step i _ squares hprev hi
    exact hne ((moveStep_line_owner i _ squares m' hstep hocc').trans
      (moveStep_line_owner i _ squares m hstep hocc).symm)

/-- C9, at the state reached by the clicks 0, 3, 1, 4, 2, whose last snapshot is won by
`X`. -/
theorem winner_is_the_only_line_owner_witness :
    OccupiesLine [some Mark.X, some Mark.X, some Mark.X, some Mark.O, some Mark.O, none, none,
        none, none] Mark.X ∧
      ∀ m' : Mark, m' ≠ Mark.X →
        ¬ OccupiesLine [some Mark.X, some Mark.X, some Mark.X, some Mark.O, some Mark.O, none,
          none, none, none] m' :=
  (winner_is_the_only_line_owner
    (Game.mk [emptySquares,
      [some Mark.X, none, none, none, none, none, none, none, none],
      [some Mark.X, none, none, some Mark.O, none, none, none, none, none],
      [some Mark.X, some Mark.X, none, some Mark.O, none, none, none, none, none],
      [some Mark.X, some Mark.X, none, some Mark.O, some Mark.O, none, none, none, none],
      [some Mark.X, some Mark.X, some Mark.X, some Mark.O, some Mark.O, none, none, none,
        none]] 5)
    (Reachable.play 2 (Reachable.play 4 (Reachable.play 1 (Reachable.play 3
      (Reachable.play 0 Reachable.initial (by decide) rfl) (by decide) rfl)
      (by decide) rfl) (by decide) rfl) (by decide) rfl)).1
    [some Mark.X, some Mark.X, some Mark.X, some Mark.O, some Mark.O, none, none, none, none]
    (by decide) Mark.X (by decide)

/-! ## Turn alternation -/

/-- C10: at every pointer `p` the derived turn owner is `X` if and only if `p` is even and
`O` if and only if `p` is odd, and it is the mark that `handleClick` writes to the clicked
cell whenever the click passes the guard, so also the mark in the snapshot that a
state-changing click appends at index `p + 1`. -/
theorem turn_alternation (history : List Squares) (p : Nat) :
    (turnMark (Game.mk history p).xIsNext = Mark.X ↔ Even p) ∧
    (turnMark (Game.mk history p).xIsNext = Mark.O ↔ Odd p) ∧
    (∀ (squares next : Squares) (c : Nat),
      handleClick (Game.mk history p).xIsNext squares c = some next →
        readCell next c = some (turnMark (Game.mk history p).xIsNext)) ∧
    (∀ (c : Nat) (g' : Game), (Game.mk history p).play c = some g' → g' ≠ Game.mk history p →
      ∃ next, g'.history[p + 1]? = some next ∧
        readCell next c = some (turnMark (Game.mk history p).xIsNext)) := by
  refine ⟨?_, ?_, ?_, ?_⟩
  · rw [Nat.even_iff]
    by_cases h : p % 2 = 0 <;> simp [Game.xIsNext, turnMark, h]
  · rw [Nat.odd_iff]
    rcases Nat.mod_two_eq_zero_or_one p with h | h <;> simp [Game.xIsNext, turnMark, h]
  · intro squares next c h
    obtain ⟨_, _, hnext⟩ := handleClick_eq_some _ squares next c h
    rw [hnext, readCell_writeCell_self]
  · intro c g' h hne
    rcases play_cases _ g' c h with h' | ⟨cur, _, _, _, h'⟩
    · exact absurd h' hne
    · have hp := (play_changed _ g' c h hne).1
      refine ⟨_, ?_, readCell_writeCell_self cur c _⟩
      rw [h']
      exact handlePlay_history_getElem?_succ (Game.mk history p) _ hp

/-- C10, at pointer 1 of the history after one click on cell 0, clicking cell 4. -/
theorem turn_alternation_witness :
    turnMark (Game.mk [emptySquares, writeCell emptySquares 0 Mark.X] 1).xIsNext = Mark.O ∧
      readCell (writeCell (writeCell emptySquares 0 Mark.X) 4 Mark.O) 4 =
        some (turnMark (Game.mk [emptySquares, writeCell emptySquares 0 Mark.X] 1).xIsNext) :=
  ⟨(turn_alternation [emptySquares, writeCell emptySquares 0 Mark.X] 1).2.1.2 (by decide),
    (turn_alternation [emptySquares, writeCell emptySquares 0 Mark.X] 1).2.2.1
      (writeCell emptySquares 0 Mark.X) (writeCell (writeCell emptySquares 0 Mark.X) 4 Mark.O)
      4 (by decide)⟩

/-! ## The scenario of the specification -/

/-- C11: from the initial state a click on cell 0 gives the snapshot `[X,_,_,_,_,_,_,_,_]`,
pointer 1 and the status line `Next player: O`; a second click on cell 0 changes nothing; a
click on cell 4 gives pointer 2 and the snapshot `[X,_,_,_,O,_,_,_,_]`; after the further
clicks on 1, 3 and 2 `calculateWinner` of the current snapshot returns `X`, and every
further click on a cell of `0..8` is a no-op. -/
theorem scenario_first_row_win :
    Game.initial.play 0 =
      some (Game.mk [emptySquares,
        [some Mark.X, none, none, none, none, none, none, none, none]] 1) ∧
    status (Game.mk [emptySquares,
        [some Mark.X, none, none, none, none, none, none, none, none]] 1).xIsNext
      [some Mark.X, none, none, none, none, none, none, none, none] = "Next player: O" ∧
    (Game.mk [emptySquares,
        [some Mark.X, none, none, none, none, none, none, none, none]] 1).play 0 =
      some (Game.mk [emptySquares,
        [some Mark.X, none, none, none, none, none, none, none, none]] 1) ∧
    (Game.mk [emptySquares,
        [some Mark.X, none, none, none, none, none, none, none, none]] 1).play 4 =
      some (Game.mk [emptySquares,
        [some Mark.X, none, none, none, none, none, none, none, none],
        [some Mark.X, none, none, none, some Mark.O, none, none, none, none]] 2) ∧
    (Game.mk [emptySquares,
        [some Mark.X, none, none, none, none, none, none, none, none],
        [some Mark.X, none, none, none, some Mark.O, none, none, none, none]] 2).plays
        [1, 3, 2] =
      some (Game.mk [emptySquares,
        [some Mark.X, none, none, none, none, none, none, none, none],
        [some Mark.X, none, none, none, some Mark.O, none, none, none, none],
        [some Mark.X, some Mark.X, none, none, some Mark.O, none, none, none, none],
        [some Mark.X, some Mark.X, none, some Mark.O, some Mark.O, none, none, none, none],
        [some Mark.X, some Mark.X, some Mark.X, some Mark.O, some Mark.O, none, none, none,
          none]] 5) ∧
    (Game.mk [emptySquares,
        [some Mark.X, none, none, none, none, none, none, none, none],
        [some Mark.X, none, none, none, some Mark.O, none, none, none, none],
        [some Mark.X, some Mark.X, none, none, some Mark.O, none, none, none, none],
        [some Mark.X, some Mark.X, none, some Mark.O, some Mark.O, none, none, none, none],
        [some Mark.X, some Mark.X, some Mark.X, some Mark.O, some Mark.O, none, none, none,
          none]] 5).currentSquares.bind calculateWinner = some Mark.X ∧
    ∀ c : Nat, c < 9 →
      (Game.mk [emptySquares,
        [some Mark.X, none, none, none, none, none, none, none, none],
        [some Mark.X, none, none, none, some Mark.O, none, none, none, none],
        [some Mark.X, some Mark.X, none, none, some Mark.O, none, none, none, none],
        [some Mark.X, some Mark.X, none, some Mark.O, some Mark.O, none, none, none, none],
        [some Mark.X, some Mark.X, some Mark.X, some Mark.O, some Mark.O, none, none, none,
          none]] 5).play c =
      some (Game.mk [emptySquares,
        [some Mark.X, none, none, none, none, none, none, none, none],
        [some Mark.X, none, none, none, some Mark.O, none, none, none, none],
        [some Mark.X, some Mark.X, none, none, some Mark.O, none, none, none, none],
        [some Mark.X, some Mark.X, none, some Mark.O, some Mark.O, none, none, none, none],
        [some Mark.X, some Mark.X, some Mark.X, some Mark.O, some Mark.O, none, none, none,
          none]] 5) := by
  refine ⟨by decide, by decide, by decide, by decide, by decide, by decide, ?_⟩
  intro c _
  exact play_of_guard_failed _ c _ (currentSquares_of_lt _ (by decide)) (Or.inl (by decide))

/-- C11, the last part at cell 5, which is empty on the won board. -/
theorem scenario_first_row_win_witness :
    (Game.mk [emptySquares,
        [some Mark.X, none, none, none, none, none, none, none, none],
        [some Mark.X, none, none, none, some Mark.O, none, none, none, none],
        [some Mark.X, some Mark.X, none, none, some Mark.O, none, none, none, none],
        [some Mark.X, some Mark.X, none, some Mark.O, some Mark.O, none, none, none, none],
        [some Mark.X, some Mark.X, some Mark.X, some Mark.O, some Mark.O, none, none, none,
          none]] 5).play 5 =
      some (Game.mk [emptySquares,
        [some Mark.X, none, none, none, none, none, none, none, none],
        [some Mark.X, none, none, none, some Mark.O, none, none, none, none],
        [some Mark.X, some Mark.X, none, none, some Mark.O, none, none, none, none],
        [some Mark.X, some Mark.X, none, some Mark.O, some Mark.O, none, none, none, none],
        [some Mark.X, some Mark.X, some Mark.X, some Mark.O, some Mark.O, none, none, none,
          none]] 5) :=
  scenario_first_row_win.2.2.2.2.2.2 5 (by decide)

/-- C12, as stated, fails: after the clicks 0, 4, 1, 3, 2 from the initial state the current
snapshot is not `[X,X,X,_,O,_,_,_,_]`, because cell 3, clicked fourth, holds `O`. -/
theorem scenario_snapshot_cell_3_not_empty :
    (Game.initial.plays [0, 4, 1, 3, 2]).bind Game.currentSquares ≠
        some [some Mark.X, some Mark.X, some Mark.X, none, some Mark.O, none, none, none,
          none] ∧
      ((Game.initial.plays [0, 4, 1, 3, 2]).bind Game.currentSquares).map
        (fun squares => readCell squares 3) = some (some Mark.O) := by
  constructor <;> decide

/-- C12, amended: after the clicks 0, 4, 1, 3, 2 from the initial state, each of which moved
the pointer, the current snapshot is `[X,X,X,O,O,_,_,_,_]`: cells 0, 1, 2 hold `X`, cells 3
and 4 hold `O`, and every other cell is empty. -/
theorem scenario_snapshot_after_five_clicks :
    (Game.initial.plays [0, 4, 1, 3, 2]).map Game.currentMove = some 5 ∧
      (Game.initial.plays [0, 4, 1, 3, 2]).bind Game.currentSquares =
        some [some Mark.X, some Mark.X, some Mark.X, some Mark.O, some Mark.O, none, none,
          none, none] ∧
      readCell [some Mark.X, some Mark.X, some Mark.X, some Mark.O, some Mark.O, none, none,
          none, none] 0 = some Mark.X ∧
      readCell [some Mark.X, some Mark.X, some Mark.X, some Mark.O, some Mark.O, none, none,
          none, none] 1 = some Mark.X ∧
      readCell [some Mark.X, some Mark.X, some Mark.X, some Mark.O, some Mark.O, none, none,
          none, none] 2 = some Mark.X ∧
      readCell [some Mark.X, some Mark.X, some Mark.X, some Mark.O, some Mark.O, none, none,
          none, none] 3 = some Mark.O ∧
      readCell [some Mark.X, some Mark.X, some Mark.X, some Mark.O, some Mark.O, none, none,
          none, none] 4 = some Mark.O ∧
      ∀ j : Nat, 4 < j →
        readCell [some Mark.X, some Mark.X, some Mark.X, some Mark.O, some Mark.O, none, none,
          none, none] j = none := by
  refine ⟨by decide, by decide, rfl, rfl, rfl, rfl, rfl, ?_⟩
  intro j hj
  by_cases h9 : j < 9
  · have hcases : j = 5 ∨ j = 6 ∨ j = 7 ∨ j = 8 := by omega
    rcases hcases with h | h | h | h <;> subst h <;> rfl
  · exact readCell_of_length_le _ j (by simpa using Nat.le_of_not_lt h9)

/-- C12, amended, at cell 7. -/
theorem scenario_snapshot_after_five_clicks_witness :
    readCell [some Mark.X, some Mark.X, some Mark.X, some Mark.O, some Mark.O, none, none,
        none, none] 7 = none :=
  scenario_snapshot_after_five_clicks.2.2.2.2.2.2.2 7 (by decide)

/-! ## The status line -/

/-- C13: for every snapshot and turn flag the status line is `winner: ` followed by the mark
when `calculateWinner` returns a mark, and otherwise `Next player: ` followed by `X` when
`xIsNext` is true and by `O` when it is false. -/
theorem status_line (xIsNext : Bool) (squares : Squares) :
    (calculateWinner squares = some Mark.X → status xIsNext squares = "winner: X") ∧
    (calculateWinner squares = some Mark.O → status xIsNext squares = "winner: O") ∧
    (calculateWinner squares = none → xIsNext = true →
      status xIsNext squares = "Next player: X") ∧
    (calculateWinner squares = none → xIsNext = false →
      status xIsNext squares = "Next player: O") := by
  refine ⟨?_, ?_, ?_, ?_⟩
  · intro h
    simp only [status, h]
    decide
  · intro h
    simp only [status, h]
    decide
  · intro h hx
    simp only [status, h, hx]
    decide
  · intro h hx
    simp only [status, h, hx]
    decide

/-- C13, at the board `[X,X,X,O,O,_,_,_,_]` and at the empty board with `O` to move. -/
theorem status_line_witness :
    status false [some Mark.X, some Mark.X, some Mark.X, some Mark.O, some Mark.O, none, none,
        none, none] = "winner: X" ∧
      status false emptySquares = "Next player: O" :=
  ⟨(status_line false [some Mark.X, some Mark.X, some Mark.X, some Mark.O, some Mark.O, none,
      none, none, none]).1 (by decide),
    (status_line false emptySquares).2.2.2 (by decide) rfl⟩

/-! ## Clicks with an index outside `0..8` -/

/-- C14, as stated, fails: `handleClick` has no range check, and from the initial state a
click with index 9 is recorded: the snapshot grows to ten cells with `X` at index 9, the
history gets a second entry and the pointer moves to 1. -/
theorem play_index_9_changes_state :
    ¬ (9 < 9) ∧
      Game.initial.play 9 =
        some (Game.mk [emptySquares,
          [none, none, none, none, none, none, none, none, none, some Mark.X]] 1) ∧
      Game.initial.play 9 ≠ some Game.initial := by
  refine ⟨by decide, by decide, by decide⟩

/-! ### Integer keys: reads, writes and clicks -/

theorem wide_read_write_self (s : Wide.Snapshot) (i : Int) (v : Mark) :
    (s.write i v).read i = some v := by
  unfold Wide.Snapshot.write Wide.Snapshot.read
  by_cases h : isArrayIndex i = true
  · simp only [h, if_true]
    exact readCell_writeCell_self s.cells i.toNat v
  · simp only [h]
    simp

/-- A write under a key outside `0..8` leaves the nine cells of the board as they are. -/
theorem wide_read_write_board (s : Wide.Snapshot) (i j : Int) (v : Mark)
    (hi : i < 0 ∨ 8 < i) (hj : 0 ≤ j ∧ j ≤ 8) : (s.write i v).read j = s.read j := by
  have hjidx : isArrayIndex j = true := by
    simp only [isArrayIndex, maxArrayIndex, Bool.and_eq_true, decide_eq_true_eq]
    omega
  unfold Wide.Snapshot.write Wide.Snapshot.read
  by_cases h : isArrayIndex i = true
  · simp only [h, hjidx, if_true]
    apply readCell_writeCell_ne
    simp only [isArrayIndex, Bool.and_eq_true, decide_eq_true_eq] at h
    omega
  · simp only [h, hjidx, if_true]
    simp

theorem wide_read_slice_board (s : Wide.Snapshot) (j : Int) (hj : 0 ≤ j ∧ j ≤ 8) :
    s.slice.read j = s.read j := by
  have hjidx : isArrayIndex j = true := by
    simp only [isArrayIndex, maxArrayIndex, Bool.and_eq_true, decide_eq_true_eq]
    omega
  simp [Wide.Snapshot.slice, Wide.Snapshot.read, hjidx]

theorem wide_read_natCast (s : Wide.Snapshot) (j : Nat) (hj : j ≤ 8) :
    s.read (j : Int) = readCell s.cells j := by
  have hjidx : isArrayIndex (j : Int) = true := by
    simp only [isArrayIndex, maxArrayIndex, Bool.and_eq_true, decide_eq_true_eq]
    omega
  simp [Wide.Snapshot.read, hjidx]

/-- The result of `calculateWinner` depends on the cells `0..8` only. -/
theorem calculateWinner_congr (a b : Squares)
    (h : ∀ j, j ≤ 8 → readCell a j = readCell b j) :
    calculateWinner a = calculateWinner b := by
  simp only [calculateWinner, lines, calculateWinnerLoop, h 0 (by omega), h 1 (by omega),
    h 2 (by omega), h 3 (by omega), h 4 (by omega), h 5 (by omega), h 6 (by omega),
    h 7 (by omega), h 8 (by omega)]

theorem wide_handleClick_of_guard_passed (xIsNext : Bool) (squares : Wide.Snapshot) (i : Int)
    (hwin : calculateWinner squares.cells = none) (hcell : squares.read i = none) :
    Wide.handleClick xIsNext squares i = some (squares.slice.write i (turnMark xIsNext)) := by
  cases xIsNext <;> simp [Wide.handleClick, hwin, hcell, turnMark]

theorem wide_handleClick_of_guard_failed (xIsNext : Bool) (squares : Wide.Snapshot) (i : Int)
    (h : calculateWinner squares.cells ≠ none ∨ squares.read i ≠ none) :
    Wide.handleClick xIsNext squares i = none := by
  rcases h with h | h
  · have h' : (calculateWinner squares.cells).isSome = true := Option.isSome_iff_ne_none.2 h
    simp [Wide.handleClick, h']
  · have h' : (squares.read i).isSome = true := Option.isSome_iff_ne_none.2 h
    simp [Wide.handleClick, h']

theorem wide_currentSquares_of_lt (g : Wide.Game) (hp : g.currentMove < g.history.length) :
    g.currentSquares = some g.history[g.currentMove] := by
  simp [Wide.Game.currentSquares, List.getElem?_eq_getElem hp]

theorem wide_handlePlay_currentMove (g : Wide.Game) (next : Wide.Snapshot)
    (hp : g.currentMove < g.history.length) :
    (g.handlePlay next).currentMove = g.currentMove + 1 := by
  simp only [Wide.Game.handlePlay, List.length_append, List.length_take,
    List.length_singleton]
  omega

/-- On arrays without further own properties and array indices, the click over integer keys
is the click of the state model over lists. -/
theorem wide_play_ofGame (g : Game) (c : Nat) (hc : c ≤ maxArrayIndex) :
    (Wide.Game.ofGame g).play (c : Int) = (g.play c).map Wide.Game.ofGame := by
  have hidx : isArrayIndex (c : Int) = true := by
    simp only [isArrayIndex, Bool.and_eq_true, decide_eq_true_eq]
    omega
  have hread : ∀ squares : Squares,
      (Wide.Snapshot.ofSquares squares).read (c : Int) = readCell squares c := by
    intro squares
    simp [Wide.Snapshot.read, Wide.Snapshot.ofSquares, hidx]
  have hwrite : ∀ (squares : Squares) (v : Mark),
      (Wide.Snapshot.ofSquares squares).slice.write (c : Int) v =
        Wide.Snapshot.ofSquares (writeCell squares c v) := by
    intro squares v
    simp [Wide.Snapshot.write, Wide.Snapshot.slice, Wide.Snapshot.ofSquares, hidx]
  have hplay : ∀ next : Squares,
      (Wide.Game.ofGame g).handlePlay (Wide.Snapshot.ofSquares next) =
        Wide.Game.ofGame (g.handlePlay next) := by
    intro next
    simp [Wide.Game.handlePlay, Game.handlePlay, Wide.Game.ofGame, List.map_take]
  unfold Wide.Game.play Game.play
  have hcur : (Wide.Game.ofGame g).currentSquares =
      g.currentSquares.map Wide.Snapshot.ofSquares := by
    simp [Wide.Game.currentSquares, Game.currentSquares, Wide.Game.ofGame]
  rw [hcur]
  cases hsq : g.currentSquares with
  | none => rfl
  | some squares =>
    simp only [Option.map_some']
    have hx : (Wide.Game.ofGame g).xIsNext = g.xIsNext := rfl
    rw [hx]
    by_cases hwin : calculateWinner squares = none
    · by_cases hcell : readCell squares c = none
      · rw [wide_handleClick_of_guard_passed _ _ _ hwin (by rw [hread]; exact hcell),
          handleClick_of_guard_passed _ _ _ hwin hcell]
        simp only [Option.map_some', hwrite, hplay]
      · rw [wide_handleClick_of_guard_failed _ _ _ (Or.inr (by rw [hread]; exact hcell)),
          handleClick_of_occupied _ _ _ hcell]
        rfl
    · rw [wide_handleClick_of_guard_failed _ _ _ (Or.inl hwin),
        handleClick_of_winner _ _ _ hwin]
      rfl

/-- C14, amended: in a state whose pointer is an index of the history, a click with an
integer index outside `0..8` is a no-op exactly when the current snapshot has a winner or
already holds a mark under that index; `handleClick` has no range check, so otherwise the
click is recorded like any other: a copy of the current snapshot with the mark of the turn
stored under the index, and with the cells `0..8` unchanged, is appended after the current
entry and the pointer advances by one. -/
theorem play_out_of_range (g : Wide.Game) (i : Int) (hp : g.currentMove < g.history.length)
    (hi : i < 0 ∨ 8 < i) :
    (g.play i = some g ↔
      (calculateWinner (g.history[g.currentMove]).cells ≠ none ∨
        (g.history[g.currentMove]).read i ≠ none)) ∧
    (calculateWinner (g.history[g.currentMove]).cells = none →
      (g.history[g.currentMove]).read i = none →
        ∃ next : Wide.Snapshot,
          g.play i = some
            { history := g.history.take (g.currentMove + 1) ++ [next],
              currentMove := g.currentMove + 1 } ∧
          next.read i = some (turnMark g.xIsNext) ∧
          (∀ j : Int, 0 ≤ j ∧ j ≤ 8 → next.read j = (g.history[g.currentMove]).read j) ∧
          calculateWinner next.cells = none) := by
  have hcur := wide_currentSquares_of_lt g hp
  have hpassed : calculateWinner (g.history[g.currentMove]).cells = none →
      (g.history[g.currentMove]).read i = none →
        g.play i = some (g.handlePlay
          ((g.history[g.currentMove]).slice.write i (turnMark g.xIsNext))) := by
    intro hwin hcell
    simp [Wide.Game.play, hcur, wide_handleClick_of_guard_passed _ _ _ hwin hcell]
  have hfailed : (calculateWinner (g.history[g.currentMove]).cells ≠ none ∨
      (g.history[g.currentMove]).read i ≠ none) → g.play i = some g := by
    intro h
    simp [Wide.Game.play, hcur, wide_handleClick_of_guard_failed _ _ _ h]
  refine ⟨⟨?_, hfailed⟩, ?_⟩
  · intro hplay
    by_contra hcon
    have hwin : calculateWinner (g.history[g.currentMove]).cells = none := by
      by_contra h
      exact hcon (Or.inl h)
    have hcell : (g.history[g.currentMove]).read i = none := by
      by_contra h
      exact hcon (Or.inr h)
    rw [hpassed hwin hcell] at hplay
    have hmove := wide_handlePlay_currentMove g
      ((g.history[g.currentMove]).slice.write i (turnMark g.xIsNext)) hp
    rw [Option.some.inj hplay] at hmove
    omega
  · intro hwin hcell
    refine ⟨(g.history[g.currentMove]).slice.write i (turnMark g.xIsNext), ?_,
      wide_read_write_self _ i _, ?_, ?_⟩
    · rw [hpassed hwin hcell]
      have hmove := wide_handlePlay_currentMove g
        ((g.history[g.currentMove]).slice.write i (turnMark g.xIsNext)) hp
      simp only [Wide.Game.handlePlay] at hmove ⊢
      rw [hmove]
    · intro j hj
      rw [wide_read_write_board _ i j _ hi hj, wide_read_slice_board _ j hj]
    · rw [← hwin]
      apply calculateWinner_congr
      intro j hj
      rw [← wide_read_natCast _ j hj, ← wide_read_natCast _ j hj,
        wide_read_write_board _ i (j : Int) _ hi (by omega),
        wide_read_slice_board _ (j : Int) (by omega)]

/-- C14, amended, at the index `2^32 - 1`, which is stored as a property: after one such
click from the initial state a second one is a no-op on a nine-cell board without winner;
and at the index `-1` from the initial state, where the click is recorded. -/
theorem play_out_of_range_witness :
    (Wide.Game.mk [Wide.Snapshot.ofSquares emptySquares,
        Wide.Snapshot.mk emptySquares [(4294967295, Mark.X)]] 1).play 4294967295 =
      some (Wide.Game.mk [Wide.Snapshot.ofSquares emptySquares,
        Wide.Snapshot.mk emptySquares [(4294967295, Mark.X)]] 1) ∧
    ∃ next : Wide.Snapshot,
      (Wide.Game.ofGame Game.initial).play (-1) = some
        { history := (Wide.Game.ofGame Game.initial).history.take
            ((Wide.Game.ofGame Game.initial).currentMove + 1) ++ [next],
          currentMove := (Wide.Game.ofGame Game.initial).currentMove + 1 } ∧
      next.read (-1) = some (turnMark (Wide.Game.ofGame Game.initial).xIsNext) ∧
      (∀ j : Int, 0 ≤ j ∧ j ≤ 8 →
        next.read j = (Wide.Snapshot.ofSquares emptySquares).read j) ∧
      calculateWinner next.cells = none :=
  ⟨(play_out_of_range
      (Wide.Game.mk [Wide.Snapshot.ofSquares emptySquares,
        Wide.Snapshot.mk emptySquares [(4294967295, Mark.X)]] 1) 4294967295
      (by decide) (by decide)).1.2 (Or.inr (by decide)),
    (play_out_of_range (Wide.Game.ofGame Game.initial) (-1) (by decide) (by decide)).2
      (by decide) (by decide)⟩

/-! ## Counting marks on the snapshots of a reachable history -/

theorem countMark_writeCell (squares : Squares) (c : Nat) (v m : Mark)
    (hc : c < squares.length) (hcell : readCell squares c = none) :
    countMark (writeCell squares c v) m = countMark squares m + if v = m then 1 else 0 := by
  have hget : squares[c] = none := by rw [← readCell_eq_getElem squares c hc, hcell]
  simp only [countMark, writeCell, if_pos hc]
  rw [List.count_set _ _ _ _ hc, hget]
  by_cases hv : v = m <;> simp [hv]

theorem countFilled_writeCell (squares : Squares) (c : Nat) (v : Mark)
    (hc : c < squares.length) (hcell : readCell squares c = none) :
    countFilled (writeCell squares c v) = countFilled squares + 1 := by
  have hget : squares[c] = none := by rw [← readCell_eq_getElem squares c hc, hcell]
  simp only [countFilled, writeCell, if_pos hc]
  rw [List.countP_set _ _ _ _ hc, hget]
  simp

/-- An entry before another entry of the history is itself an entry. -/
theorem history_getElem?_pred (g : Game) (i : Nat) (b : Squares)
    (hb : g.history[i + 1]? = some b) : ∃ a, g.history[i]? = some a := by
  have hlt : i + 1 < g.history.length := by
    by_contra hcon
    rw [List.getElem?_eq_none (Nat.le_of_not_lt hcon)] at hb
    exact absurd hb (by simp)
  exact ⟨g.history[i], List.getElem?_eq_getElem (by omega)⟩

/-- Under the invariant the entry at index `i` has nine cells, `i` of them non-empty:
`(i + 1) / 2` hold `X` and `i / 2` hold `O`. -/
theorem inv_counts (g : Game) (hg : Inv g) :
    ∀ (i : Nat) (squares : Squares), g.history[i]? = some squares →
      squares.length = 9 ∧ countFilled squares = i ∧
        countMark squares Mark.X = (i + 1) / 2 ∧ countMark squares Mark.O = i / 2 := by
  intro i
  induction i with
  | zero =>
    intro squares h
    rw [hg.first] at h
    cases h
    decide
  | succ i ih =>
    intro squares h
    obtain ⟨a, ha⟩ := history_getElem?_pred g i squares h
    obtain ⟨h9, hfilled, hx, ho⟩ := ih a ha
    obtain ⟨_, c, hc, hcell, hnext⟩ := hg.step i a squares ha h
    have hlt : c < a.length := by omega
    refine ⟨hg.nine squares (List.getElem?_mem h), ?_, ?_, ?_⟩
    · rw [hnext, countFilled_writeCell a c _ hlt hcell, hfilled]
    · rw [hnext, countMark_writeCell a c _ _ hlt hcell, hx]
      rcases Nat.mod_two_eq_zero_or_one i with hi | hi
      · simp only [turnMark, hi, beq_self_eq_true, if_true]
        omega
      · simp only [turnMark, hi]
        simp only [Nat.reduceBEq, Bool.false_eq_true, if_false]
        have hne : ¬ (Mark.O = Mark.X) := by decide
        simp only [hne, if_false]
        omega
    · rw [hnext, countMark_writeCell a c _ _ hlt hcell, ho]
      rcases Nat.mod_two_eq_zero_or_one i with hi | hi
      · simp only [turnMark, hi, beq_self_eq_true, if_true]
        have hne : ¬ (Mark.X = Mark.O) := by decide
        simp only [hne, if_false]
        omega
      · simp only [turnMark, hi]
        simp only [Nat.reduceBEq, Bool.false_eq_true, if_false, if_true]
        omega

/-- Every run of clicks on cells of `0..8` from a reachable state ends in a reachable
state. -/
theorem reachable_of_plays (cs : List Nat) :
    ∀ (g g' : Game), Reachable g → (∀ c ∈ cs, c < 9) → g.plays cs = some g' →
      Reachable g' := by
  induction cs with
  | nil =>
    intro g g' hr _ h
    simp only [Game.plays, Option.some.injEq] at h
    rw [← h]
    exact hr
  | cons c rest ih =>
    intro g g' hr hcs h
    simp only [Game.plays] at h
    cases hplay : g.play c with
    | none => simp [hplay] at h
    | some g1 =>
      simp only [hplay] at h
      exact ih g1 g' (Reachable.play c hr (hcs c (List.mem_cons_self _ _)) hplay)
        (fun d hd => hcs d (List.mem_cons_of_mem _ hd)) h

/-- C15: in every reachable state the history entry at index `i` has exactly 9 cells,
exactly `i` of them non-empty, of which `ceil(i/2)` (that is `(i + 1) / 2`) hold `X` and
`floor(i/2)` hold `O`; so on the current snapshot it is the turn of `X` exactly when the
board holds as many `X` as `O`, and otherwise it holds one more `X`. -/
theorem history_entry_counts (g : Game) (hr : Reachable g) :
    (∀ (i : Nat) (squares : Squares), g.history[i]? = some squares →
      squares.length = 9 ∧ countFilled squares = i ∧
        countMark squares Mark.X = (i + 1) / 2 ∧ countMark squares Mark.O = i / 2 ∧
        2 * ((i + 1) / 2) = i + i % 2) ∧
    (∀ squares : Squares, g.currentSquares = some squares →
      (g.xIsNext = true ↔ countMark squares Mark.X = countMark squares Mark.O) ∧
      (g.xIsNext = false ↔ countMark squares Mark.X = countMark squares Mark.O + 1)) := by
  have hinv := inv_of_reachable g hr
  constructor
  · intro i squares h
    obtain ⟨h9, hf, hx, ho⟩ := inv_counts g hinv i squares h
    exact ⟨h9, hf, hx, ho, by omega⟩
  · intro squares h
    obtain ⟨_, _, hx, ho⟩ := inv_counts g hinv g.currentMove squares h
    rw [hx, ho]
    rcases Nat.mod_two_eq_zero_or_one g.currentMove with hp | hp
    · simp only [Game.xIsNext, hp, beq_self_eq_true, true_iff, Bool.true_eq_false, false_iff]
      omega
    · simp only [Game.xIsNext, hp]
      simp only [Nat.reduceBEq, Bool.false_eq_true, false_iff, true_iff]
      omega

/-- C15, at the state reached by the clicks 0, 4, 1: the entry at index 3 holds two `X`
and one `O`. -/
theorem history_entry_counts_witness :
    countMark [some Mark.X, some Mark.X, none, none, some Mark.O, none, none, none, none]
        Mark.X = (3 + 1) / 2 ∧
      countMark [some Mark.X, some Mark.X, none, none, some Mark.O, none, none, none, none]
        Mark.O = 3 / 2 :=
  ⟨((history_entry_counts
      (Game.mk [emptySquares,
        [some Mark.X, none, none, none, none, none, none, none, none],
        [some Mark.X, none, none, none, some Mark.O, none, none, none, none],
        [some Mark.X, some Mark.X, none, none, some Mark.O, none, none, none, none]] 3)
      (reachable_of_plays [0, 4, 1] Game.initial _ Reachable.initial (by decide)
        (by decide))).1 3 _ (by decide)).2.2.1,
    ((history_entry_counts
      (Game.mk [emptySquares,
        [some Mark.X, none, none, none, none, none, none, none, none],
        [some Mark.X, none, none, none, some Mark.O, none, none, none, none],
        [some Mark.X, some Mark.X, none, none, some Mark.O, none, none, none, none]] 3)
      (reachable_of_plays [0, 4, 1] Game.initial _ Reachable.initial (by decide)
        (by decide))).1 3 _ (by decide)).2.2.2.1⟩

/-! ## Won positions in a reachable history -/

/-- A mark that occupies a line of a nine-cell board is on the board at least three
times. -/
theorem three_le_countMark_of_occupiesLine (squares : Squares) (m : Mark)
    (h9 : squares.length = 9) (h : OccupiesLine squares m) : 3 ≤ countMark squares m := by
  rcases squares with _ | ⟨x0, _ | ⟨x1, _ | ⟨x2, _ | ⟨x3, _ | ⟨x4, _ | ⟨x5, _ | ⟨x6, _ | ⟨x7,
    _ | ⟨x8, _ | ⟨x9, rest⟩⟩⟩⟩⟩⟩⟩⟩⟩⟩ <;> simp only [List.length_cons, List.length_nil] at h9
    <;> try omega
  obtain ⟨l, hl, h1, h2, h3⟩ := h
  simp only [lines, List.mem_cons, List.mem_singleton, List.not_mem_nil, or_false] at hl
  rcases hl with rfl | rfl | rfl | rfl | rfl | rfl | rfl | rfl <;>
    simp only [readCell, List.getD_cons_zero, List.getD_cons_succ] at h1 h2 h3 <;>
    subst h1 <;> subst h2 <;> subst h3 <;>
    simp only [countMark, List.count_cons, List.count_nil, beq_self_eq_true, if_true] <;>
    omega

/-- C16: in every reachable state, if `calculateWinner` of the history entry at index `i`
returns a mark `m`, then `i ≥ 5` and `m` is the mark placed by move `i`: `X` when `i` is odd
and `O` when `i` is even. -/
theorem winner_is_last_mover (g : Game) (hr : Reachable g) (i : Nat) (squares : Squares)
    (m : Mark) (hi : g.history[i]? = some squares) (hm : calculateWinner squares = some m) :
    5 ≤ i ∧ (i % 2 = 1 → m = Mark.X) ∧ (i % 2 = 0 → m = Mark.O) := by
  have hinv := inv_of_reachable g hr
  have hocc := occupiesLine_of_calculateWinner squares m hm
  obtain ⟨h9, _, hx, ho⟩ := inv_counts g hinv i squares hi
  have h3 := three_le_countMark_of_occupiesLine squares m h9 hocc
  cases i with
  | zero =>
    rw [hinv.first] at hi
    cases hi
    rw [calculateWinner_emptySquares] at hm
    exact absurd hm (by simp)
  | succ j =>
    obtain ⟨a, ha⟩ := history_getElem?_pred g j squares hi
    have hmark := moveStep_line_owner j a squares m (hinv.step j a squares ha hi) hocc
    rcases Nat.mod_two_eq_zero_or_one j with hj | hj
    · have hmX : m = Mark.X := by
        rw [hmark]
        simp [turnMark, hj]
      subst hmX
      refine ⟨by omega, fun _ => rfl, fun h => by omega⟩
    · have hmO : m = Mark.O := by
        rw [hmark]
        simp [turnMark, hj]
      subst hmO
      refine ⟨by omega, fun h => by omega, fun _ => rfl⟩

/-- C16, at the state reached by the clicks 0, 3, 1, 4, 2: the entry at index 5 is won by
`X`. -/
theorem winner_is_last_mover_witness :
    5 ≤ 5 ∧ (5 % 2 = 1 → Mark.X = Mark.X) ∧ (5 % 2 = 0 → Mark.X = Mark.O) :=
  winner_is_last_mover
    (Game.mk [emptySquares,
      [some Mark.X, none, none, none, none, none, none, none, none],
      [some Mark.X, none, none, some Mark.O, none, none, none, none, none],
      [some Mark.X, some Mark.X, none, some Mark.O, none, none, none, none, none],
      [some Mark.X, some Mark.X, none, some Mark.O, some Mark.O, none, none, none, none],
      [some Mark.X, some Mark.X, some Mark.X, some Mark.O, some Mark.O, none, none, none,
        none]] 5)
    (reachable_of_plays [0, 3, 1, 4, 2] Game.initial _ Reachable.initial (by decide)
      (by decide)) 5
    [some Mark.X, some Mark.X, some Mark.X, some Mark.O, some Mark.O, none, none, none, none]
    Mark.X (by decide) (by decide)

/-- C17: in every reachable state only the last history entry can be a won position: for
every `i < len(history) - 1` the entry at index `i` exists and `calculateWinner` of it is
`null`. -/
theorem only_last_entry_can_be_won (g : Game) (hr : Reachable g) (i : Nat)
    (hi : i < g.history.length - 1) :
    ∃ squares, g.history[i]? = some squares ∧ calculateWinner squares = none := by
  have hinv := inv_of_reachable g hr
  have ha : g.history[i]? = some g.history[i] := List.getElem?_eq_getElem (by omega)
  have hb : g.history[i + 1]? = some g.history[i + 1] := List.getElem?_eq_getElem (by omega)
  exact ⟨g.history[i], ha, (hinv.step i _ _ ha hb).1⟩

/-- C17, at the won state reached by the clicks 0, 3, 1, 4, 2 and the index 4. -/
theorem only_last_entry_can_be_won_witness :
    ∃ squares,
      (Game.mk [emptySquares,
        [some Mark.X, none, none, none, none, none, none, none, none],
        [some Mark.X, none, none, some Mark.O, none, none, none, none, none],
        [some Mark.X, some Mark.X, none, some Mark.O, none, none, none, none, none],
        [some Mark.X, some Mark.X, none, some Mark.O, some Mark.O, none, none, none, none],
        [some Mark.X, some Mark.X, some Mark.X, some Mark.O, some Mark.O, none, none, none,
          none]] 5).history[4]? = some squares ∧ calculateWinner squares = none :=
  only_last_entry_can_be_won
    (Game.mk [emptySquares,
      [some Mark.X, none, none, none, none, none, none, none, none],
      [some Mark.X, none, none, some Mark.O, none, none, none, none, none],
      [some Mark.X, some Mark.X, none, some Mark.O, none, none, none, none, none],
      [some Mark.X, some Mark.X, none, some Mark.O, some Mark.O, none, none, none, none],
      [some Mark.X, some Mark.X, some Mark.X, some Mark.O, some Mark.O, none, none, none,
        none]] 5)
    (reachable_of_plays [0, 3, 1, 4, 2] Game.initial _ Reachable.initial (by decide)
      (by decide)) 4 (by decide)

/-! ## The game is bounded -/

/-- C18: in every reachable state the history has at most 10 entries and the pointer is at
most 9; and when the pointer is 9 every click on a cell of `0..8` is a no-op. -/
theorem game_is_bounded (g : Game) (hr : Reachable g) :
    g.history.length ≤ 10 ∧ g.currentMove ≤ 9 ∧
      (g.currentMove = 9 → ∀ c : Nat, c < 9 → g.play c = some g) := by
  have hinv := inv_of_reachable g hr
  have hp := hinv.pointer
  have hlen : g.history.length ≤ 10 := by
    have hlast : g.history[g.history.length - 1]? = some g.history[g.history.length - 1] :=
      List.getElem?_eq_getElem (by omega)
    obtain ⟨h9, hf, _, _⟩ := inv_counts g hinv _ _ hlast
    have hle : countFilled g.history[g.history.length - 1] ≤
        (g.history[g.history.length - 1]).length := List.countP_le_length _
    omega
  refine ⟨hlen, by omega, ?_⟩
  intro hp9 c hc
  have hcur : g.history[g.currentMove]? = some g.history[g.currentMove] :=
    List.getElem?_eq_getElem hp
  obtain ⟨h9, hf, _, _⟩ := inv_counts g hinv _ _ hcur
  have hall : ∀ a ∈ g.history[g.currentMove], Option.isSome a = true := by
    apply List.countP_eq_length.1
    have hf' : List.countP Option.isSome g.history[g.currentMove] = g.currentMove := hf
    rw [hf', h9, hp9]
  have hcell : readCell g.history[g.currentMove] c ≠ none := by
    rw [readCell_eq_getElem _ c (by omega)]
    exact Option.isSome_iff_ne_none.1 (hall _ (List.getElem_mem _))
  exact play_of_guard_failed g c _ (currentSquares_of_lt g hp) (Or.inr hcell)

/-- C18, at the full board reached by the nine clicks 0, 1, 2, 4, 3, 5, 7, 6, 8 (a draw):
the pointer is 9 and a further click on cell 0 changes nothing. -/
theorem game_is_bounded_witness :
    (Game.initial.plays [0, 1, 2, 4, 3, 5, 7, 6, 8]).map Game.currentMove = some 9 ∧
      (Game.initial.plays [0, 1, 2, 4, 3, 5, 7, 6, 8]).bind (fun g => g.play 0) =
        Game.initial.plays [0, 1, 2, 4, 3, 5, 7, 6, 8] := by
  have hmove : (Game.initial.plays [0, 1, 2, 4, 3, 5, 7, 6, 8]).map Game.currentMove =
      some 9 := by decide
  refine ⟨hmove, ?_⟩
  cases h : Game.initial.plays [0, 1, 2, 4, 3, 5, 7, 6, 8] with
  | none => rfl
  | some g =>
    rw [h] at hmove
    have hr : Reachable g :=
      reachable_of_plays [0, 1, 2, 4, 3, 5, 7, 6, 8] Game.initial g Reachable.initial
        (by decide) h
    exact (game_is_bounded g hr).2.2 (Option.some.inj hmove) 0 (by decide)

end TicTacToe
